import Mathlib

/-!
Verification of the CRDT core of the yorkie-rust-sdk repository.

The Rust data structures are shallowly embedded as executable Lean
definitions, mirroring the source files:

* `src/document/time/actor_id.rs`  — `ActorID`, lexicographic `compare`
* `src/document/time/ticket.rs`    — `Ticket`, `cmp`, `after`
* `src/document/json/rht.rs`       — replicated hashtable `RHT`
* `src/document/json/rht_pq_map.rs`— `RHTPriorityQueueMap` (arena model)
* `src/document/llrb.rs`           — left-leaning red-black `Tree`
* `src/document/splay.rs`          — weighted splay `Tree` (arena model)

Machine integers (`u64` lamport, `u32` delimiter, `u8` actor bytes) are
modelled as `Nat`: the source only ever compares them, never performs
arithmetic, so wrap-around is irrelevant.  Rust code that can panic
(`unwrap` on `None`) is modelled in an `Option`/`Except` result where the
panic is reachable, and fallible code returns `Except`.
-/

namespace Yorkie

/-! ## Logical clock: `ActorID` and `Ticket` -/

/-- `ActorID` from `actor_id.rs`: a byte identifier (12 bytes in Rust;
the comparison logic is length-generic, so bytes are kept as a list). -/
structure ActorID where
  bytes : List Nat
deriving DecidableEq, Repr

/-- `ActorID::compare` from `actor_id.rs`: zip the two byte sequences,
take the first non-equal pointwise comparison, and fall back to
comparing lengths when the common prefix is exhausted. -/
def ActorID.compare (a b : ActorID) : Ordering :=
  match (List.zipWith Ord.compare a.bytes b.bytes).find? (fun o => o ≠ Ordering.eq) with
  | some o => o
  | none => Ord.compare a.bytes.length b.bytes.length

/-- `Ticket` from `ticket.rs`: lamport timestamp, delimiter, actor id. -/
structure Ticket where
  lamport : Nat
  delimiter : Nat
  actor_id : ActorID
deriving DecidableEq, Repr

/-- `Ticket::cmp` from `ticket.rs`: compare lamport, then actor id,
then delimiter (the early-return chain becomes nested matches). -/
def Ticket.cmp (a b : Ticket) : Ordering :=
  match Ord.compare a.lamport b.lamport with
  | Ordering.eq =>
    match ActorID.compare a.actor_id b.actor_id with
    | Ordering.eq => Ord.compare a.delimiter b.delimiter
    | etc => etc
  | etc => etc

/-- `Ticket::after` from `ticket.rs`: true iff `cmp` is `Greater`. -/
def Ticket.after (a b : Ticket) : Bool :=
  match a.cmp b with
  | Ordering.gt => true
  | _ => false

/-! ### Order lemmas for the clock

`lexCompare` is a structurally recursive reformulation of
`ActorID.compare`; it is proved equal to the source definition and the
order facts are established for it. -/

def lexCompare : List Nat → List Nat → Ordering
  | [], [] => Ordering.eq
  | [], _ :: _ => Ordering.lt
  | _ :: _, [] => Ordering.gt
  | a :: as', b :: bs' =>
    match Ord.compare a b with
    | Ordering.eq => lexCompare as' bs'
    | etc => etc

theorem natCompare_eq_iff (a b : Nat) : Ord.compare a b = Ordering.eq ↔ a = b := by
  show compareOfLessAndEq a b = Ordering.eq ↔ a = b
  unfold compareOfLessAndEq
  split
  · exact iff_of_false (by simp) (by omega)
  · split
    · exact iff_of_true rfl (by assumption)
    · exact iff_of_false (by simp) (by assumption)

theorem natCompare_lt_iff (a b : Nat) : Ord.compare a b = Ordering.lt ↔ a < b := by
  show compareOfLessAndEq a b = Ordering.lt ↔ a < b
  unfold compareOfLessAndEq
  split
  · exact iff_of_true rfl (by assumption)
  · split
    · exact iff_of_false (by simp) (by assumption)
    · exact iff_of_false (by simp) (by assumption)

theorem natCompare_gt_iff (a b : Nat) : Ord.compare a b = Ordering.gt ↔ b < a := by
  show compareOfLessAndEq a b = Ordering.gt ↔ b < a
  unfold compareOfLessAndEq
  split
  · exact iff_of_false (by simp) (by omega)
  · split
    · exact iff_of_false (by simp) (by omega)
    · exact iff_of_true rfl (by omega)

theorem natCompare_succ (a b : Nat) : Ord.compare (a + 1) (b + 1) = Ord.compare a b := by
  rcases Nat.lt_trichotomy a b with h | h | h
  · rw [(natCompare_lt_iff a b).mpr h, (natCompare_lt_iff (a + 1) (b + 1)).mpr (by omega)]
  · rw [(natCompare_eq_iff a b).mpr h, (natCompare_eq_iff (a + 1) (b + 1)).mpr (by omega)]
  · rw [(natCompare_gt_iff a b).mpr h, (natCompare_gt_iff (a + 1) (b + 1)).mpr (by omega)]

theorem lexCompare_eq_source (a b : List Nat) :
    ActorID.compare ⟨a⟩ ⟨b⟩ = lexCompare a b := by
  induction a generalizing b with
  | nil =>
    cases b with
    | nil => rfl
    | cons y ys =>
      show (match (List.zipWith Ord.compare [] (y :: ys)).find?
              (fun o => o ≠ Ordering.eq) with
            | some o => o
            | none => Ord.compare (List.length ([] : List Nat)) (y :: ys).length)
          = lexCompare [] (y :: ys)
      simp only [List.zipWith, List.find?, List.length, lexCompare]
      exact (natCompare_lt_iff 0 (ys.length + 1)).mpr (by omega)
  | cons x xs ih =>
    cases b with
    | nil =>
      show (match (List.zipWith Ord.compare (x :: xs) []).find?
              (fun o => o ≠ Ordering.eq) with
            | some o => o
            | none => Ord.compare (x :: xs).length (List.length ([] : List Nat)))
          = lexCompare (x :: xs) []
      simp only [List.zipWith, List.find?, List.length, lexCompare]
      exact (natCompare_gt_iff (xs.length + 1) 0).mpr (by omega)
    | cons y ys =>
      show (match (List.zipWith Ord.compare (x :: xs) (y :: ys)).find?
              (fun o => o ≠ Ordering.eq) with
            | some o => o
            | none => Ord.compare (x :: xs).length (y :: ys).length)
          = lexCompare (x :: xs) (y :: ys)
      rcases h : Ord.compare x y with _ | _ | _
      · simp [List.zipWith, List.find?, h, lexCompare]
      · have hsrc := ih ys
        simp only [ActorID.compare] at hsrc
        simp only [List.zipWith, List.find?, h, lexCompare, List.length_cons,
          natCompare_succ]
        simpa using hsrc
      · simp [List.zipWith, List.find?, h, lexCompare]

theorem lexCompare_eq_iff (a b : List Nat) : lexCompare a b = Ordering.eq ↔ a = b := by
  induction a generalizing b with
  | nil => cases b <;> simp [lexCompare]
  | cons x xs ih =>
    cases b with
    | nil => simp [lexCompare]
    | cons y ys =>
      rcases h : Ord.compare x y with _ | _ | _
      · simp only [lexCompare, h]
        have hne : x ≠ y := by
          intro hxy
          rw [hxy, (natCompare_eq_iff y y).mpr rfl] at h
          exact Ordering.noConfusion h
        simp [hne]
      · have hxy : x = y := (natCompare_eq_iff x y).mp h
        simp only [lexCompare, h]
        rw [ih]
        simp [hxy]
      · simp only [lexCompare, h]
        have hne : x ≠ y := by
          intro hxy
          rw [hxy, (natCompare_eq_iff y y).mpr rfl] at h
          exact Ordering.noConfusion h
        simp [hne]

theorem lexCompare_swap (a b : List Nat) : lexCompare b a = (lexCompare a b).swap := by
  induction a generalizing b with
  | nil => cases b <;> simp [lexCompare, Ordering.swap]
  | cons x xs ih =>
    cases b with
    | nil => simp [lexCompare, Ordering.swap]
    | cons y ys =>
      rcases h : Ord.compare x y with _ | _ | _
      · have h' : Ord.compare y x = Ordering.gt :=
          (natCompare_gt_iff y x).mpr ((natCompare_lt_iff x y).mp h)
        simp [lexCompare, h, h', Ordering.swap]
      · have hxy : x = y := (natCompare_eq_iff x y).mp h
        have h' : Ord.compare y x = Ordering.eq := (natCompare_eq_iff y x).mpr hxy.symm
        simp only [lexCompare, h, h']
        exact ih ys
      · have h' : Ord.compare y x = Ordering.lt :=
          (natCompare_lt_iff y x).mpr ((natCompare_gt_iff x y).mp h)
        simp [lexCompare, h, h', Ordering.swap]

theorem lexCompare_trans_lt {a b c : List Nat}
    (hab : lexCompare a b = Ordering.lt) (hbc : lexCompare b c = Ordering.lt) :
    lexCompare a c = Ordering.lt := by
  induction a generalizing b c with
  | nil =>
    cases b with
    | nil => exact absurd hab (by simp [lexCompare])
    | cons y ys =>
      cases c with
      | nil => exact absurd hbc (by simp [lexCompare])
      | cons z zs => simp [lexCompare]
  | cons x xs ih =>
    cases b with
    | nil => exact absurd hab (by simp [lexCompare])
    | cons y ys =>
      cases c with
      | nil => exact absurd hbc (by simp [lexCompare])
      | cons z zs =>
        simp only [lexCompare] at hab hbc ⊢
        rcases hxy : Ord.compare x y with h1 | h1 | h1 <;> rw [hxy] at hab
        · rcases hyz : Ord.compare y z with h2 | h2 | h2 <;> rw [hyz] at hbc
          · have : x < z :=
              Nat.lt_trans ((natCompare_lt_iff x y).mp hxy) ((natCompare_lt_iff y z).mp hyz)
            rw [(natCompare_lt_iff x z).mpr this]
          · have hyz' : y = z := (natCompare_eq_iff y z).mp hyz
            rw [(natCompare_lt_iff x z).mpr (hyz' ▸ (natCompare_lt_iff x y).mp hxy)]
          · exact absurd hbc (by simp)
        · have hxy' : x = y := (natCompare_eq_iff x y).mp hxy
          rcases hyz : Ord.compare y z with h2 | h2 | h2 <;> rw [hyz] at hbc
          · rw [(natCompare_lt_iff x z).mpr (hxy' ▸ (natCompare_lt_iff y z).mp hyz)]
          · have hyz' : y = z := (natCompare_eq_iff y z).mp hyz
            rw [(natCompare_eq_iff x z).mpr (hxy'.trans hyz')]
            exact ih hab hbc
          · exact absurd hbc (by simp)
        · exact absurd hab (by simp)

theorem actorCompare_eq_lex (a b : ActorID) :
    ActorID.compare a b = lexCompare a.bytes b.bytes :=
  lexCompare_eq_source a.bytes b.bytes

theorem actorCompare_eq_iff (a b : ActorID) :
    ActorID.compare a b = Ordering.eq ↔ a = b := by
  rw [actorCompare_eq_lex, lexCompare_eq_iff]
  cases a; cases b; simp

theorem actorCompare_swap (a b : ActorID) :
    ActorID.compare b a = (ActorID.compare a b).swap := by
  rw [actorCompare_eq_lex, actorCompare_eq_lex, lexCompare_swap]

theorem actorCompare_trans_lt {a b c : ActorID}
    (hab : ActorID.compare a b = Ordering.lt) (hbc : ActorID.compare b c = Ordering.lt) :
    ActorID.compare a c = Ordering.lt := by
  rw [actorCompare_eq_lex] at hab hbc ⊢
  exact lexCompare_trans_lt hab hbc

theorem Ticket.cmp_eq_iff (a b : Ticket) : a.cmp b = Ordering.eq ↔ a = b := by
  unfold Ticket.cmp
  rcases h1 : Ord.compare a.lamport b.lamport with _ | _ | _
  · refine iff_of_false (by simp) fun h => ?_
    rw [h, (natCompare_eq_iff b.lamport b.lamport).mpr rfl] at h1
    exact Ordering.noConfusion h1
  · have hl : a.lamport = b.lamport := (natCompare_eq_iff _ _).mp h1
    rcases h2 : ActorID.compare a.actor_id b.actor_id with _ | _ | _
    · refine iff_of_false (by simp) fun h => ?_
      rw [h, (actorCompare_eq_iff b.actor_id b.actor_id).mpr rfl] at h2
      exact Ordering.noConfusion h2
    · have ha : a.actor_id = b.actor_id := (actorCompare_eq_iff _ _).mp h2
      simp only [natCompare_eq_iff]
      constructor
      · intro hd
        cases a; cases b
        simp_all
      · intro h
        rw [h]
    · refine iff_of_false (by simp) fun h => ?_
      rw [h, (actorCompare_eq_iff b.actor_id b.actor_id).mpr rfl] at h2
      exact Ordering.noConfusion h2
  · refine iff_of_false (by simp) fun h => ?_
    rw [h, (natCompare_eq_iff b.lamport b.lamport).mpr rfl] at h1
    exact Ordering.noConfusion h1

theorem natCompare_swap (a b : Nat) : Ord.compare b a = (Ord.compare a b).swap := by
  rcases Nat.lt_trichotomy a b with h | h | h
  · rw [(natCompare_lt_iff a b).mpr h, (natCompare_gt_iff b a).mpr h]; rfl
  · rw [(natCompare_eq_iff a b).mpr h, (natCompare_eq_iff b a).mpr h.symm]; rfl
  · rw [(natCompare_gt_iff a b).mpr h, (natCompare_lt_iff b a).mpr h]; rfl

theorem Ticket.cmp_swap (a b : Ticket) : b.cmp a = (a.cmp b).swap := by
  unfold Ticket.cmp
  rw [natCompare_swap a.lamport b.lamport, actorCompare_swap a.actor_id b.actor_id,
    natCompare_swap a.delimiter b.delimiter]
  rcases Ord.compare a.lamport b.lamport with _ | _ | _ <;>
    [skip; rcases ActorID.compare a.actor_id b.actor_id with _ | _ | _; skip] <;> rfl

theorem Ticket.cmp_trans_lt {a b c : Ticket}
    (hab : a.cmp b = Ordering.lt) (hbc : b.cmp c = Ordering.lt) :
    a.cmp c = Ordering.lt := by
  unfold Ticket.cmp at hab hbc ⊢
  rcases h1 : Ord.compare a.lamport b.lamport with _ | _ | _ <;> rw [h1] at hab
  · rcases h2 : Ord.compare b.lamport c.lamport with _ | _ | _ <;> rw [h2] at hbc
    · have : a.lamport < c.lamport :=
        Nat.lt_trans ((natCompare_lt_iff _ _).mp h1) ((natCompare_lt_iff _ _).mp h2)
      rw [(natCompare_lt_iff _ _).mpr this]
    · have he : b.lamport = c.lamport := (natCompare_eq_iff _ _).mp h2
      rw [(natCompare_lt_iff _ _).mpr (he ▸ (natCompare_lt_iff _ _).mp h1)]
    · rcases h3 : ActorID.compare b.actor_id c.actor_id with _ | _ | _ <;>
        rw [h3] at hbc <;> exact Ordering.noConfusion hbc
  · have he : a.lamport = b.lamport := (natCompare_eq_iff _ _).mp h1
    rcases h2 : Ord.compare b.lamport c.lamport with _ | _ | _ <;> rw [h2] at hbc
    · rw [(natCompare_lt_iff _ _).mpr (he ▸ (natCompare_lt_iff _ _).mp h2)]
    · have he2 : b.lamport = c.lamport := (natCompare_eq_iff _ _).mp h2
      rw [(natCompare_eq_iff _ _).mpr (he.trans he2)]
      rcases h3 : ActorID.compare a.actor_id b.actor_id with _ | _ | _ <;> rw [h3] at hab
      · rcases h4 : ActorID.compare b.actor_id c.actor_id with _ | _ | _ <;>
          rw [h4] at hbc
        · rw [actorCompare_trans_lt h3 h4]
        · have ha : b.actor_id = c.actor_id := (actorCompare_eq_iff _ _).mp h4
          rw [ha] at h3
          rw [h3]
        · exact Ordering.noConfusion hbc
      · have ha : a.actor_id = b.actor_id := (actorCompare_eq_iff _ _).mp h3
        rcases h4 : ActorID.compare b.actor_id c.actor_id with _ | _ | _ <;>
          rw [h4] at hbc
        · rw [ha, h4]
        · have ha2 : b.actor_id = c.actor_id := (actorCompare_eq_iff _ _).mp h4
          rw [(actorCompare_eq_iff _ _).mpr (ha.trans ha2)]
          have : a.delimiter < c.delimiter :=
            Nat.lt_trans ((natCompare_lt_iff _ _).mp hab) ((natCompare_lt_iff _ _).mp hbc)
          rw [(natCompare_lt_iff _ _).mpr this]
        · exact Ordering.noConfusion hbc
      · exact Ordering.noConfusion hab
    · rcases h3 : ActorID.compare b.actor_id c.actor_id with _ | _ | _ <;>
        rw [h3] at hbc <;> exact Ordering.noConfusion hbc
  · rcases h3 : ActorID.compare a.actor_id b.actor_id with _ | _ | _ <;>
      rw [h3] at hab <;> exact Ordering.noConfusion hab

theorem Ticket.after_iff_gt (a b : Ticket) : a.after b = true ↔ a.cmp b = Ordering.gt := by
  unfold Ticket.after
  rcases a.cmp b with _ | _ | _ <;> simp

theorem Ticket.cmp_gt_iff_lt (a b : Ticket) :
    a.cmp b = Ordering.gt ↔ b.cmp a = Ordering.lt := by
  rw [Ticket.cmp_swap b a]
  cases h : b.cmp a <;> simp [h, Ordering.swap]

theorem Ticket.after_trans {a b c : Ticket}
    (hab : a.after b = true) (hbc : b.after c = true) : a.after c = true := by
  rw [Ticket.after_iff_gt] at hab hbc ⊢
  rw [Ticket.cmp_gt_iff_lt] at hab hbc ⊢
  exact Ticket.cmp_trans_lt hbc hab

theorem Ticket.after_irrefl (a : Ticket) : a.after a = false := by
  have h : a.cmp a = Ordering.eq := (Ticket.cmp_eq_iff a a).mpr rfl
  unfold Ticket.after
  rw [h]

/-- `a.after b = false` is the reflexive order `a ≤ b` read backwards:
`a.cmp b` is `lt` or `eq`. -/
theorem Ticket.after_eq_false_iff (a b : Ticket) :
    a.after b = false ↔ (a.cmp b = Ordering.lt ∨ a.cmp b = Ordering.eq) := by
  unfold Ticket.after
  rcases h : a.cmp b with _ | _ | _ <;> simp

theorem Ticket.cmp_le_trans {a b c : Ticket}
    (h1 : a.cmp b = Ordering.lt ∨ a.cmp b = Ordering.eq)
    (h2 : b.cmp c = Ordering.lt ∨ b.cmp c = Ordering.eq) :
    a.cmp c = Ordering.lt ∨ a.cmp c = Ordering.eq := by
  rcases h1 with h1 | h1 <;> rcases h2 with h2 | h2
  · exact Or.inl (Ticket.cmp_trans_lt h1 h2)
  · have hbc : b = c := (Ticket.cmp_eq_iff b c).mp h2
    exact Or.inl (hbc ▸ h1)
  · have hab : a = b := (Ticket.cmp_eq_iff a b).mp h1
    exact Or.inl (hab ▸ h2)
  · have hab : a = b := (Ticket.cmp_eq_iff a b).mp h1
    have hbc : b = c := (Ticket.cmp_eq_iff b c).mp h2
    exact Or.inr ((Ticket.cmp_eq_iff a c).mpr (hab.trans hbc))

/-- Totality in the form used by the tombstone proofs: `¬ b.after a` and
`¬ c.after b` give `¬ c.after a` (transitivity of the reflexive order). -/
theorem Ticket.not_after_trans {a b c : Ticket}
    (hba : b.after a = false) (hcb : c.after b = false) : c.after a = false := by
  rw [Ticket.after_eq_false_iff] at hba hcb ⊢
  exact Ticket.cmp_le_trans hcb hba

/-- Antisymmetry: if neither ticket is after the other, they are equal. -/
theorem Ticket.not_after_antisymm {a b : Ticket}
    (hab : a.after b = false) (hba : b.after a = false) : a = b := by
  rcases h : a.cmp b with _ | _ | _
  · have hgt : b.after a = true :=
      (Ticket.after_iff_gt b a).mpr ((Ticket.cmp_gt_iff_lt b a).mpr h)
    rw [hgt] at hba
    exact Bool.noConfusion hba
  · exact (Ticket.cmp_eq_iff a b).mp h
  · have hgt : a.after b = true := (Ticket.after_iff_gt a b).mpr h
    rw [hgt] at hab
    exact Bool.noConfusion hab

/-! ## RHT — replicated hashtable (`rht.rs`)

`node_map_by_key` is modelled as a list of nodes with pairwise-distinct
keys (a `HashMap` binding per key).  `node_map_by_created_at` is written
by `insert_exec` but never read anywhere in the repository, so it is not
carried in the state. -/

/-- `RHTNode` from `rht.rs`. -/
structure RHTNode where
  key : String
  val : String
  updated_at : Ticket
  removed_at : Option Ticket
deriving DecidableEq, Repr

/-- `RHTNode::remove` from `rht.rs`: set the tombstone if there is none,
or advance it when the new ticket is strictly after the current one. -/
def RHTNode.remove (n : RHTNode) (removed_at : Ticket) : RHTNode :=
  match n.removed_at with
  | some v => if removed_at.after v then { n with removed_at := some removed_at } else n
  | none => { n with removed_at := some removed_at }

/-- `RHTNode::is_removed` from `rht.rs`. -/
def RHTNode.is_removed (n : RHTNode) : Bool :=
  match n.removed_at with
  | none => false
  | some _ => true

/-- `RHT` from `rht.rs` (the per-key binding map). -/
structure RHT where
  nodes : List RHTNode
deriving DecidableEq, Repr

/-- `HashMap::get(&key)` on `node_map_by_key`. -/
def RHT.find (st : RHT) (key : String) : Option RHTNode :=
  st.nodes.find? (fun n => n.key == key)

/-- Replace the binding of `key` in place (the borrow_mut update of the
node found for `key`). -/
def updateNode (l : List RHTNode) (key : String) (f : RHTNode → RHTNode) :
    List RHTNode :=
  match l with
  | [] => []
  | n :: rest => if n.key == key then f n :: rest else n :: updateNode rest key f

/-- `RHT::insert_exec`: `HashMap::insert` replaces the binding of `key`
with a fresh, tombstone-free node. -/
def RHT.insert_exec (st : RHT) (key val : String) (executed_at : Ticket) : RHT :=
  ⟨⟨key, val, executed_at, none⟩ :: st.nodes.filter (fun n => ¬ n.key == key)⟩

/-- `RHT::insert` from `rht.rs`: last-writer-wins guarded by `after`. -/
def RHT.insert (st : RHT) (key val : String) (executed_at : Ticket) : RHT :=
  match st.find key with
  | some node =>
    if executed_at.after node.updated_at then st.insert_exec key val executed_at else st
  | none => st.insert_exec key val executed_at

/-- `RHT::get` from `rht.rs`. -/
def RHT.get (st : RHT) (key : String) : String :=
  match st.find key with
  | some node => if node.is_removed then "" else node.val
  | none => ""

/-- `RHT::has` from `rht.rs`. -/
def RHT.has (st : RHT) (key : String) : Bool :=
  match st.find key with
  | some node => !node.is_removed
  | none => false

/-- `RHT::remove` from `rht.rs`: returns the value handed back to the
caller together with the mutated table. -/
def RHT.remove (st : RHT) (key : String) (executed_at : Ticket) : String × RHT :=
  match st.find key with
  | some node =>
    match node.removed_at with
    | some removed_at =>
      if executed_at.after removed_at then
        (node.val, ⟨updateNode st.nodes key (fun n => n.remove executed_at)⟩)
      else
        ("", st)
    | none => (node.val, ⟨updateNode st.nodes key (fun n => n.remove executed_at)⟩)
  | none => ("", st)

/-- `RHT::elements` from `rht.rs`: every binding is mapped to its value —
the source has no tombstone filter. -/
def RHT.elements (st : RHT) : List (String × String) :=
  st.nodes.map (fun n => (n.key, n.val))

/-! ### RHT lemmas -/

theorem RHTNode.remove_key (n : RHTNode) (t : Ticket) : (n.remove t).key = n.key := by
  unfold RHTNode.remove
  rcases n.removed_at with _ | r
  · rfl
  · dsimp only
    split <;> rfl

theorem RHTNode.remove_val (n : RHTNode) (t : Ticket) : (n.remove t).val = n.val := by
  unfold RHTNode.remove
  rcases n.removed_at with _ | r
  · rfl
  · dsimp only
    split <;> rfl

theorem find_updateNode_self (l : List RHTNode) (k : String) (f : RHTNode → RHTNode)
    (hf : ∀ n, (f n).key = n.key) :
    (List.find? (fun n => n.key == k) (updateNode l k f)) =
      (List.find? (fun n => n.key == k) l).map f := by
  induction l with
  | nil => rfl
  | cons n rest ih =>
    by_cases h : n.key = k
    · simp [updateNode, h, List.find?, hf n]
    · have hne : (n.key == k) = false := by simp [h]
      simp [updateNode, hne, List.find?, ih]

theorem find_updateNode_other (l : List RHTNode) (k k' : String) (f : RHTNode → RHTNode)
    (hf : ∀ n, (f n).key = n.key) (hkk : k' ≠ k) :
    (List.find? (fun n => n.key == k) (updateNode l k' f)) =
      List.find? (fun n => n.key == k) l := by
  induction l with
  | nil => rfl
  | cons n rest ih =>
    by_cases h : n.key = k'
    · have hnk : (n.key == k) = false := by simp [h, hkk]
      have hfk : ((f n).key == k) = false := by simp [hf n, h, hkk]
      have hk'k : (k' == k) = false := by simp [hkk]
      simp [updateNode, h, List.find?, hnk, hfk, hk'k]
    · have hne : (n.key == k') = false := by simp [h]
      simp only [updateNode, hne, if_false, List.find?]
      rcases hx : (n.key == k) with _ | _
      · simpa [hx] using ih
      · simp [hx]

theorem RHT.find_insert_exec_self (st : RHT) (k v : String) (t : Ticket) :
    (st.insert_exec k v t).find k = some ⟨k, v, t, none⟩ := by
  simp [RHT.insert_exec, RHT.find, List.find?]

/-- One-key view of `insert`: what `insert` does to the binding of `key`. -/
def insStep (r : Option RHTNode) (key val : String) (t : Ticket) : Option RHTNode :=
  match r with
  | some n => if t.after n.updated_at then some ⟨key, val, t, none⟩ else some n
  | none => some ⟨key, val, t, none⟩

theorem RHT.find_insert_self (st : RHT) (k v : String) (t : Ticket) :
    (st.insert k v t).find k = insStep (st.find k) k v t := by
  unfold RHT.insert insStep
  rcases h : st.find k with _ | n
  · exact st.find_insert_exec_self k v t
  · dsimp only
    split
    · exact st.find_insert_exec_self k v t
    · exact h

theorem RHT.get_of_find (st : RHT) (k : String) :
    st.get k = match st.find k with
      | some node => if node.is_removed then "" else node.val
      | none => "" := rfl

/-- One-key view of `remove`: `find` after `remove` on the same key. -/
theorem RHT.find_remove_self (st : RHT) (k : String) (t : Ticket) :
    ((st.remove k t).2).find k =
      match st.find k with
      | some node =>
        match node.removed_at with
        | some r => if t.after r then some (node.remove t) else some node
        | none => some (node.remove t)
      | none => none := by
  unfold RHT.remove
  rcases h : st.find k with _ | node
  · exact h
  · dsimp only
    rcases hr : node.removed_at with _ | r
    · show RHT.find _ _ = _
      unfold RHT.find
      rw [find_updateNode_self _ _ _ (fun n => RHTNode.remove_key n t)]
      unfold RHT.find at h
      rw [h]
      rfl
    · dsimp only
      split
      · show RHT.find _ _ = _
        unfold RHT.find
        rw [find_updateNode_self _ _ _ (fun n => RHTNode.remove_key n t)]
        unfold RHT.find at h
        rw [h]
        rfl
      · exact h

/-- `remove` on one key does not change the binding of another key. -/
theorem RHT.find_remove_other (st : RHT) (k k' : String) (t : Ticket) (hkk : k' ≠ k) :
    ((st.remove k' t).2).find k = st.find k := by
  unfold RHT.remove
  rcases h : st.find k' with _ | node
  · rfl
  · dsimp only
    rcases hr : node.removed_at with _ | r
    · show RHT.find _ _ = _
      unfold RHT.find
      exact find_updateNode_other _ _ _ _ (fun n => RHTNode.remove_key n t) hkk
    · dsimp only
      split
      · show RHT.find _ _ = _
        unfold RHT.find
        exact find_updateNode_other _ _ _ _ (fun n => RHTNode.remove_key n t) hkk
      · rfl

/-- A key is tombstoned-or-absent: any binding it has is removed. -/
def tombstonedOrAbsent (st : RHT) (k : String) : Prop :=
  ∀ n, st.find k = some n → n.is_removed = true

theorem tombstonedOrAbsent_get {st : RHT} {k : String} (h : tombstonedOrAbsent st k) :
    st.get k = "" ∧ st.has k = false := by
  unfold RHT.get RHT.has
  rcases hf : st.find k with _ | n
  · exact ⟨rfl, rfl⟩
  · have := h n hf
    simp [this]

theorem RHTNode.remove_is_removed (n : RHTNode) (t : Ticket) :
    (n.remove t).is_removed = true := by
  unfold RHTNode.remove
  rcases hr : n.removed_at with _ | r
  · rfl
  · dsimp only
    rcases hafter : t.after r with _ | _
    · rw [if_neg (by simp [hafter])]
      simp [RHTNode.is_removed, hr]
    · rw [if_pos (by simp [hafter])]
      rfl

theorem remove_self_tombstones (st : RHT) (k : String) (t : Ticket) :
    tombstonedOrAbsent (st.remove k t).2 k := by
  intro n hn
  rw [RHT.find_remove_self] at hn
  rcases hf : st.find k with _ | node <;> rw [hf] at hn <;> dsimp only at hn
  · exact Option.noConfusion hn
  · rcases hr : node.removed_at with _ | r <;> rw [hr] at hn <;> dsimp only at hn
    · cases hn
      exact RHTNode.remove_is_removed node t
    · rcases hafter : t.after r with _ | _
      · rw [hafter, if_neg Bool.false_ne_true] at hn
        cases hn
        simp [RHTNode.is_removed, hr]
      · rw [hafter, if_pos rfl] at hn
        cases hn
        exact RHTNode.remove_is_removed node t

theorem remove_preserves_tombstonedOrAbsent {st : RHT} {k : String}
    (h : tombstonedOrAbsent st k) (k' : String) (t : Ticket) :
    tombstonedOrAbsent (st.remove k' t).2 k := by
  by_cases hkk : k' = k
  · subst hkk
    intro n hn
    rw [RHT.find_remove_self] at hn
    rcases hf : st.find k' with _ | node <;> rw [hf] at hn <;> dsimp only at hn
    · exact Option.noConfusion hn
    · have hrem := h node hf
      unfold RHTNode.is_removed at hrem
      rcases hr : node.removed_at with _ | r <;> rw [hr] at hn <;> dsimp only at hn
      · rw [hr] at hrem
        exact Bool.noConfusion hrem
      · rcases hafter : t.after r with _ | _
        · rw [hafter, if_neg Bool.false_ne_true] at hn
          cases hn
          simp [RHTNode.is_removed, hr]
        · rw [hafter, if_pos rfl] at hn
          cases hn
          exact RHTNode.remove_is_removed node t
  · intro n hn
    rw [RHT.find_remove_other st k k' t hkk] at hn
    exact h n hn

/-- The tombstone left on `k` by `remove k t` is at least `t` (it is `t`
itself or an already newer one), stated through `after`. -/
theorem remove_tombstone_at_least (st : RHT) (k : String) (t : Ticket) :
    ∀ n, ((st.remove k t).2).find k = some n →
      ∃ r1, n.removed_at = some r1 ∧
        ∀ t' : Ticket, t'.after t = false → t'.after r1 = false := by
  intro n hn
  rw [RHT.find_remove_self] at hn
  rcases hf : st.find k with _ | node <;> rw [hf] at hn <;> dsimp only at hn
  · exact Option.noConfusion hn
  · rcases hr : node.removed_at with _ | r <;> rw [hr] at hn <;> dsimp only at hn
    · cases hn
      refine ⟨t, ?_, fun t' ht' => ht'⟩
      unfold RHTNode.remove
      rw [hr]
    · rcases hafter : t.after r with _ | _
      · rw [hafter, if_neg Bool.false_ne_true] at hn
        cases hn
        exact ⟨r, hr, fun t' ht' => Ticket.not_after_trans hafter ht'⟩
      · rw [hafter, if_pos rfl] at hn
        cases hn
        refine ⟨t, ?_, fun t' ht' => ht'⟩
        unfold RHTNode.remove
        rw [hr]
        dsimp only
        rw [if_pos (by simp [hafter])]

def applyRemoves (st : RHT) (ops : List (String × Ticket)) : RHT :=
  ops.foldl (fun s p => (s.remove p.1 p.2).2) st

theorem applyRemoves_preserves_tombstonedOrAbsent {st : RHT} {k : String}
    (h : tombstonedOrAbsent st k) (ops : List (String × Ticket)) :
    tombstonedOrAbsent (applyRemoves st ops) k := by
  induction ops generalizing st with
  | nil => exact h
  | cons p rest ih =>
    exact ih (remove_preserves_tombstonedOrAbsent h p.1 p.2)

/-- C5 — RHT tombstone is monotonic.  After `remove k t`, `get k` is
empty and `has k` is false, and this persists under any further sequence
of removes; a second `remove k t'` with `t'` not after `t` returns the
empty string and leaves the state (in particular the tombstone ticket)
entirely unchanged. -/
theorem C5_rht_tombstone_monotonic (st : RHT) (k : String) (t : Ticket) :
    (((st.remove k t).2).get k = "" ∧ ((st.remove k t).2).has k = false) ∧
    (∀ t' : Ticket, t'.after t = false →
      ((st.remove k t).2).remove k t' = ("", (st.remove k t).2)) ∧
    (∀ ops : List (String × Ticket),
      (applyRemoves (st.remove k t).2 ops).get k = "" ∧
      (applyRemoves (st.remove k t).2 ops).has k = false) := by
  have hts := remove_self_tombstones st k t
  refine ⟨tombstonedOrAbsent_get hts, ?_, ?_⟩
  · intro t' ht'
    have hleast := remove_tombstone_at_least st k t
    generalize hgen : (st.remove k t).2 = st1
    rw [hgen] at hleast
    rcases hf : st1.find k with _ | n
    · unfold RHT.remove
      rw [hf]
    · obtain ⟨r1, hr1, hmin⟩ := hleast n hf
      unfold RHT.remove
      rw [hf]
      dsimp only
      rw [hr1]
      dsimp only
      rw [hmin t' ht', if_neg Bool.false_ne_true]
  · intro ops
    exact tombstonedOrAbsent_get (applyRemoves_preserves_tombstonedOrAbsent hts ops)

/-- C5 witness: instantiation at a concrete table, key and tickets. -/
theorem C5_witness :
    (((RHT.insert ⟨[]⟩ "k" "v" ⟨3, 0, ⟨[1]⟩⟩).remove "k" ⟨5, 0, ⟨[1]⟩⟩).2).get "k" = "" ∧
    (((RHT.insert ⟨[]⟩ "k" "v" ⟨3, 0, ⟨[1]⟩⟩).remove "k" ⟨5, 0, ⟨[1]⟩⟩).2).remove "k" ⟨4, 0, ⟨[1]⟩⟩ =
      ("", ((RHT.insert ⟨[]⟩ "k" "v" ⟨3, 0, ⟨[1]⟩⟩).remove "k" ⟨5, 0, ⟨[1]⟩⟩).2) := by
  refine ⟨(C5_rht_tombstone_monotonic (RHT.insert ⟨[]⟩ "k" "v" ⟨3, 0, ⟨[1]⟩⟩) "k" ⟨5, 0, ⟨[1]⟩⟩).1.1, ?_⟩
  exact (C5_rht_tombstone_monotonic (RHT.insert ⟨[]⟩ "k" "v" ⟨3, 0, ⟨[1]⟩⟩) "k"
    ⟨5, 0, ⟨[1]⟩⟩).2.1 ⟨4, 0, ⟨[1]⟩⟩ (by decide)

/-- C10 — `remove` on a key whose entry is already tombstoned: a stale
removal ticket returns the empty string and leaves the state unchanged;
a strictly newer ticket advances the tombstone and returns the stored
value; on an untombstoned entry it sets the first tombstone and returns
the stored value. -/
theorem C10_rht_remove_tombstoned_behavior (st : RHT) (k : String) (t : Ticket)
    (node : RHTNode) (hfind : st.find k = some node) :
    (∀ r, node.removed_at = some r → t.after r = false →
      st.remove k t = ("", st)) ∧
    (∀ r, node.removed_at = some r → t.after r = true →
      (st.remove k t).1 = node.val ∧
      ((st.remove k t).2).find k = some { node with removed_at := some t }) ∧
    (node.removed_at = none →
      (st.remove k t).1 = node.val ∧
      ((st.remove k t).2).find k = some { node with removed_at := some t }) := by
  refine ⟨?_, ?_, ?_⟩
  · intro r hr hstale
    unfold RHT.remove
    rw [hfind]
    dsimp only
    rw [hr]
    dsimp only
    rw [hstale, if_neg Bool.false_ne_true]
  · intro r hr hafter
    constructor
    · unfold RHT.remove
      rw [hfind]
      dsimp only
      rw [hr]
      dsimp only
      rw [hafter, if_pos rfl]
    · rw [RHT.find_remove_self, hfind]
      dsimp only
      rw [hr]
      dsimp only
      rw [hafter, if_pos rfl]
      unfold RHTNode.remove
      rw [hr]
      dsimp only
      rw [if_pos (by simp [hafter])]
  · intro hr
    constructor
    · unfold RHT.remove
      rw [hfind]
      dsimp only
      rw [hr]
    · rw [RHT.find_remove_self, hfind]
      dsimp only
      rw [hr]
      dsimp only
      unfold RHTNode.remove
      rw [hr]

/-- C10 witness: concrete tombstoned and untombstoned entries. -/
theorem C10_witness :
    ((RHT.mk [⟨"k", "v", ⟨0, 0, ⟨[1]⟩⟩, some ⟨5, 0, ⟨[1]⟩⟩⟩]).remove "k" ⟨2, 0, ⟨[1]⟩⟩ =
      ("", RHT.mk [⟨"k", "v", ⟨0, 0, ⟨[1]⟩⟩, some ⟨5, 0, ⟨[1]⟩⟩⟩])) ∧
    ((RHT.mk [⟨"k", "v", ⟨0, 0, ⟨[1]⟩⟩, some ⟨5, 0, ⟨[1]⟩⟩⟩]).remove "k" ⟨9, 0, ⟨[1]⟩⟩).1 = "v" ∧
    ((RHT.mk [⟨"k", "v", ⟨0, 0, ⟨[1]⟩⟩, none⟩]).remove "k" ⟨2, 0, ⟨[1]⟩⟩).1 = "v" := by
  refine ⟨?_, ?_, ?_⟩
  · exact (C10_rht_remove_tombstoned_behavior (RHT.mk [⟨"k", "v", ⟨0, 0, ⟨[1]⟩⟩, some ⟨5, 0, ⟨[1]⟩⟩⟩])
      "k" ⟨2, 0, ⟨[1]⟩⟩ _ rfl).1 ⟨5, 0, ⟨[1]⟩⟩ rfl (by decide)
  · exact ((C10_rht_remove_tombstoned_behavior (RHT.mk [⟨"k", "v", ⟨0, 0, ⟨[1]⟩⟩, some ⟨5, 0, ⟨[1]⟩⟩⟩])
      "k" ⟨9, 0, ⟨[1]⟩⟩ _ rfl).2.1 ⟨5, 0, ⟨[1]⟩⟩ rfl (by decide)).1
  · exact ((C10_rht_remove_tombstoned_behavior (RHT.mk [⟨"k", "v", ⟨0, 0, ⟨[1]⟩⟩, none⟩])
      "k" ⟨2, 0, ⟨[1]⟩⟩ _ rfl).2.2 rfl).1

/-- C4 (amended) — `elements()` returns exactly the key→value pairs of
ALL entries, tombstoned ones included: the source has no tombstone
filter. -/
theorem C4_rht_elements_all_entries (st : RHT) (k v : String) :
    (k, v) ∈ st.elements ↔ ∃ n, n ∈ st.nodes ∧ n.key = k ∧ n.val = v := by
  unfold RHT.elements
  rw [List.mem_map]
  constructor
  · rintro ⟨n, hn, heq⟩
    exact ⟨n, hn, congrArg Prod.fst heq, congrArg Prod.snd heq⟩
  · rintro ⟨n, hn, hk, hv⟩
    exact ⟨n, hn, by rw [hk, hv]⟩

/-- C4 counterexample: a tombstoned entry still appears in `elements()`,
contrary to the claim that no tombstoned key appears in the result. -/
theorem C4_counterexample :
    (let st := ((RHT.insert ⟨[]⟩ "k" "v" ⟨0, 0, ⟨[1]⟩⟩).remove "k" ⟨0, 1, ⟨[1]⟩⟩).2
     ((st.find "k").map RHTNode.is_removed = some true) ∧ ("k", "v") ∈ st.elements) := by
  constructor
  · rfl
  · show ("k", "v") ∈ [("k", "v")]
    exact List.mem_singleton.mpr rfl

/-! ### C2 — last-writer-wins, idempotence and convergence of `insert` -/

theorem Ticket.after_asymm {a b : Ticket} (h : a.after b = true) : b.after a = false := by
  rw [Ticket.after_iff_gt] at h
  rw [Ticket.after_eq_false_iff]
  left
  exact (Ticket.cmp_gt_iff_lt a b).mp h

/-- Apply a list of `(value, ticket)` inserts for a fixed key. -/
def applyInserts (k : String) (st : RHT) (l : List (String × Ticket)) : RHT :=
  l.foldl (fun s p => s.insert k p.1 p.2) st

/-- The one-key shadow of `applyInserts`. -/
def foldIns (k : String) (r : Option RHTNode) (l : List (String × Ticket)) :
    Option RHTNode :=
  l.foldl (fun r p => insStep r k p.1 p.2) r

theorem applyInserts_find (k : String) (st : RHT) (l : List (String × Ticket)) :
    (applyInserts k st l).find k = foldIns k (st.find k) l := by
  induction l generalizing st with
  | nil => rfl
  | cons p rest ih =>
    show (applyInserts k (st.insert k p.1 p.2) rest).find k = _
    rw [ih, RHT.find_insert_self]
    rfl

/-- `t` beats the current binding: there is none, or `t` is after it. -/
def afterR (r : Option RHTNode) (t : Ticket) : Prop :=
  match r with
  | none => True
  | some n => t.after n.updated_at = true

theorem insStep_cases (r : Option RHTNode) (k v : String) (t : Ticket) :
    (afterR r t ∧ insStep r k v t = some ⟨k, v, t, none⟩) ∨
    (∃ n, r = some n ∧ t.after n.updated_at = false ∧ insStep r k v t = r) := by
  rcases r with _ | n
  · exact Or.inl ⟨trivial, rfl⟩
  · rcases h : t.after n.updated_at with _ | _
    · refine Or.inr ⟨n, rfl, h, ?_⟩
      unfold insStep
      dsimp only
      rw [h, if_neg Bool.false_ne_true]
    · refine Or.inl ⟨h, ?_⟩
      unfold insStep
      dsimp only
      rw [h, if_pos rfl]

theorem foldIns_characterize (k : String) (l : List (String × Ticket)) :
    ∀ r : Option RHTNode,
    (∃ p, p ∈ l ∧ foldIns k r l = some ⟨k, p.1, p.2, none⟩ ∧
      (∀ q ∈ l, q.2.after p.2 = false) ∧ afterR r p.2) ∨
    (foldIns k r l = r ∧ ∀ p ∈ l, ∃ n, r = some n ∧ p.2.after n.updated_at = false) := by
  induction l with
  | nil => exact fun r => Or.inr ⟨rfl, by simp⟩
  | cons p rest ih =>
    intro r
    have hfold : foldIns k r (p :: rest) = foldIns k (insStep r k p.1 p.2) rest := rfl
    rcases ih (insStep r k p.1 p.2) with ⟨p', hp'mem, hp'fold, hp'dom, hp'after⟩ | ⟨hkeep, hall⟩
    · left
      refine ⟨p', List.mem_cons_of_mem p hp'mem, hfold ▸ hp'fold, ?_, ?_⟩
      · intro q hq
        rcases List.mem_cons.mp hq with hq | hq
        · subst hq
          rcases insStep_cases r k q.1 q.2 with ⟨_, hstep⟩ | ⟨n, hr, hstale, hstep⟩
          · rw [hstep] at hp'after
            have h1 : p'.2.after q.2 = true := hp'after
            exact Ticket.after_asymm h1
          · rw [hstep, hr] at hp'after
            have h2 : p'.2.after n.updated_at = true := hp'after
            rcases hx : q.2.after p'.2 with _ | _
            · rfl
            · have h1 : q.2.after n.updated_at = true := Ticket.after_trans hx h2
              rw [h1] at hstale
              exact Bool.noConfusion hstale
        · exact hp'dom q hq
      · rcases insStep_cases r k p.1 p.2 with ⟨hbeats, hstep⟩ | ⟨n, hr, hstale, hstep⟩
        · rcases hopt : r with _ | n
          · trivial
          · rw [hstep] at hp'after
            have h1 : p'.2.after p.2 = true := hp'after
            have h2 : p.2.after n.updated_at = true := by
              have := hbeats
              rw [hopt] at this
              exact this
            show p'.2.after n.updated_at = true
            exact Ticket.after_trans h1 h2
        · rw [hstep] at hp'after
          exact hp'after
    · rcases insStep_cases r k p.1 p.2 with ⟨hbeats, hstep⟩ | ⟨n, hr, hstale, hstep⟩
      · left
        refine ⟨p, List.mem_cons_self p rest, ?_, ?_, hbeats⟩
        · rw [hfold, hstep]
          rw [hstep] at hkeep
          exact hkeep
        · intro q hq
          rcases List.mem_cons.mp hq with hq | hq
          · subst hq
            exact Ticket.after_irrefl q.2
          · obtain ⟨nq, hnq, hqstale⟩ := hall q hq
            rw [hstep] at hnq
            cases hnq
            exact hqstale
      · right
        constructor
        · rw [hfold, hstep]
          rw [hstep] at hkeep
          exact hkeep
        · intro q hq
          rcases List.mem_cons.mp hq with hq | hq
          · subst hq
            exact ⟨n, hr, hstale⟩
          · obtain ⟨nq, hnq, hqstale⟩ := hall q hq
            rw [hstep] at hnq
            exact ⟨nq, hnq, hqstale⟩

/-- C2 (amended) — RHT insert is last-writer-wins, idempotent and
convergent: (a) inserting `(k,v1,t1)` then `(k,v2,t2)` with `t2` after
`t1` AND after the updated_at of any pre-existing entry for `k` yields
`get k = v2`; (b) an insert whose ticket is not after the current
entry's `updated_at` leaves the table unchanged; (c) any two
enumerations (with arbitrary replays) of one collection of inserts for
`k` whose equal tickets carry equal values converge to the same
`get k`. -/
theorem C2_rht_insert_lww_convergence :
    (∀ (st : RHT) (k v1 v2 : String) (t1 t2 : Ticket),
      t2.after t1 = true →
      (∀ n, st.find k = some n → t2.after n.updated_at = true) →
      ((st.insert k v1 t1).insert k v2 t2).get k = v2) ∧
    (∀ (st : RHT) (k v3 : String) (t0 : Ticket) (n : RHTNode),
      st.find k = some n → t0.after n.updated_at = false →
      st.insert k v3 t0 = st) ∧
    (∀ (st : RHT) (k : String) (l1 l2 : List (String × Ticket)),
      (∀ p q, p ∈ l1 → q ∈ l1 → p.2 = q.2 → p.1 = q.1) →
      (∀ p, p ∈ l1 ↔ p ∈ l2) →
      (applyInserts k st l1).get k = (applyInserts k st l2).get k) := by
  refine ⟨?_, ?_, ?_⟩
  · intro st k v1 v2 t1 t2 h21 hbeats
    have hfind : ((st.insert k v1 t1).insert k v2 t2).find k = some ⟨k, v2, t2, none⟩ := by
      rw [RHT.find_insert_self, RHT.find_insert_self]
      rcases hf : st.find k with _ | n
      · unfold insStep
        dsimp only
        rw [h21, if_pos rfl]
      · rcases h1 : t1.after n.updated_at with _ | _
        · unfold insStep
          dsimp only
          rw [h1, if_neg Bool.false_ne_true]
          dsimp only
          rw [hbeats n hf, if_pos rfl]
        · unfold insStep
          dsimp only
          rw [h1, if_pos rfl]
          dsimp only
          rw [h21, if_pos rfl]
    unfold RHT.get
    rw [hfind]
    rfl
  · intro st k v3 t0 n hfind hstale
    unfold RHT.insert
    rw [hfind]
    dsimp only
    rw [hstale, if_neg Bool.false_ne_true]
  · intro st k l1 l2 hcompat hset
    have hfind : (applyInserts k st l1).find k = (applyInserts k st l2).find k := by
      rw [applyInserts_find, applyInserts_find]
      rcases foldIns_characterize k l1 (st.find k) with
        ⟨p1, hm1, hf1, hd1, ha1⟩ | ⟨hk1, hall1⟩ <;>
        rcases foldIns_characterize k l2 (st.find k) with
          ⟨p2, hm2, hf2, hd2, ha2⟩ | ⟨hk2, hall2⟩
      · rw [hf1, hf2]
        have hm12 : p1 ∈ l2 := (hset p1).mp hm1
        have hm21 : p2 ∈ l1 := (hset p2).mpr hm2
        have hta : p1.2.after p2.2 = false := hd2 p1 hm12
        have htb : p2.2.after p1.2 = false := hd1 p2 hm21
        have hteq : p2.2 = p1.2 := Ticket.not_after_antisymm htb hta
        have hveq : p2.1 = p1.1 := hcompat p2 p1 hm21 hm1 hteq
        rw [hteq, hveq]
      · exfalso
        obtain ⟨n, hn, hstale⟩ := hall2 p1 ((hset p1).mp hm1)
        rw [hn] at ha1
        have h1 : p1.2.after n.updated_at = true := ha1
        rw [h1] at hstale
        exact Bool.noConfusion hstale
      · exfalso
        obtain ⟨n, hn, hstale⟩ := hall1 p2 ((hset p2).mpr hm2)
        rw [hn] at ha2
        have h1 : p2.2.after n.updated_at = true := ha2
        rw [h1] at hstale
        exact Bool.noConfusion hstale
      · rw [hk1, hk2]
    unfold RHT.get
    rw [hfind]

/-- C2 witness: each conjunct applied at concrete inputs. -/
theorem C2_witness :
    (((RHT.mk []).insert "k" "v1" ⟨1, 0, ⟨[1]⟩⟩).insert "k" "v2" ⟨2, 0, ⟨[1]⟩⟩).get "k" = "v2" ∧
    (RHT.mk [⟨"k", "v", ⟨5, 0, ⟨[1]⟩⟩, none⟩]).insert "k" "x" ⟨1, 0, ⟨[1]⟩⟩ =
      RHT.mk [⟨"k", "v", ⟨5, 0, ⟨[1]⟩⟩, none⟩] ∧
    (applyInserts "k" (RHT.mk []) [("a", ⟨1, 0, ⟨[1]⟩⟩)]).get "k" =
      (applyInserts "k" (RHT.mk []) [("a", ⟨1, 0, ⟨[1]⟩⟩)]).get "k" := by
  refine ⟨?_, ?_, ?_⟩
  · exact C2_rht_insert_lww_convergence.1 (RHT.mk []) "k" "v1" "v2" ⟨1, 0, ⟨[1]⟩⟩
      ⟨2, 0, ⟨[1]⟩⟩ (by decide) (fun n h => Option.noConfusion h)
  · exact C2_rht_insert_lww_convergence.2.1 (RHT.mk [⟨"k", "v", ⟨5, 0, ⟨[1]⟩⟩, none⟩])
      "k" "x" ⟨1, 0, ⟨[1]⟩⟩ ⟨"k", "v", ⟨5, 0, ⟨[1]⟩⟩, none⟩ rfl (by decide)
  · exact C2_rht_insert_lww_convergence.2.2 (RHT.mk []) "k"
      [("a", ⟨1, 0, ⟨[1]⟩⟩)] [("a", ⟨1, 0, ⟨[1]⟩⟩)]
      (fun p q hp hq _ => by
        rw [List.mem_singleton.mp hp, List.mem_singleton.mp hq])
      (fun p => Iff.rfl)

/-- C2 counterexample: over an arbitrary pre-existing state the claim's
first clause fails — with an entry for `k` newer than both tickets, the
two inserts are ignored and `get k` keeps the old value `"v0"`, not
`"v2"`. -/
theorem C2_counterexample :
    Ticket.after ⟨2, 0, ⟨[1]⟩⟩ ⟨1, 0, ⟨[1]⟩⟩ = true ∧
    (((RHT.mk [⟨"k", "v0", ⟨5, 0, ⟨[1]⟩⟩, none⟩]).insert "k" "v1"
        ⟨1, 0, ⟨[1]⟩⟩).insert "k" "v2" ⟨2, 0, ⟨[1]⟩⟩).get "k" = "v0" := by
  constructor
  · decide
  · rfl

/-- C3 — `Ticket::cmp` is a strict total order: `eq` coincides with
equality (so for all `a b` exactly one of `lt`/`eq`/`gt` holds, `cmp`
being a single `Ordering`), `gt` is the mirror of `lt`, `lt` is
transitive; the order compares `lamport` first, breaks ties by
`actor_id` (lexicographic byte comparison), finally by `delimiter`;
and `after` holds exactly when `cmp` is `Greater`. -/
theorem C3_ticket_strict_total_order :
    (∀ a b : Ticket, a.cmp b = Ordering.eq ↔ a = b) ∧
    (∀ a b : Ticket, a.cmp b = Ordering.gt ↔ b.cmp a = Ordering.lt) ∧
    (∀ a b c : Ticket,
      a.cmp b = Ordering.lt → b.cmp c = Ordering.lt → a.cmp c = Ordering.lt) ∧
    (∀ a b : Ticket, a.lamport < b.lamport → a.cmp b = Ordering.lt) ∧
    (∀ a b : Ticket, a.lamport = b.lamport →
      ActorID.compare a.actor_id b.actor_id = Ordering.lt → a.cmp b = Ordering.lt) ∧
    (∀ a b : Ticket, a.lamport = b.lamport → a.actor_id = b.actor_id →
      a.delimiter < b.delimiter → a.cmp b = Ordering.lt) ∧
    (∀ a b : ActorID, ActorID.compare a b = lexCompare a.bytes b.bytes) ∧
    (∀ a b : Ticket, a.after b = true ↔ a.cmp b = Ordering.gt) := by
  refine ⟨Ticket.cmp_eq_iff, Ticket.cmp_gt_iff_lt,
    fun a b c => Ticket.cmp_trans_lt, ?_, ?_, ?_, actorCompare_eq_lex,
    Ticket.after_iff_gt⟩
  · intro a b h
    unfold Ticket.cmp
    rw [(natCompare_lt_iff a.lamport b.lamport).mpr h]
  · intro a b hl ha
    unfold Ticket.cmp
    rw [(natCompare_eq_iff a.lamport b.lamport).mpr hl, ha]
  · intro a b hl ha hd
    unfold Ticket.cmp
    rw [(natCompare_eq_iff a.lamport b.lamport).mpr hl,
      (actorCompare_eq_iff a.actor_id b.actor_id).mpr ha,
      (natCompare_lt_iff a.delimiter b.delimiter).mpr hd]

/-- C3 witness: each ordering clause applied at concrete tickets. -/
theorem C3_witness :
    (Ticket.cmp ⟨1, 2, ⟨[3]⟩⟩ ⟨1, 2, ⟨[3]⟩⟩ = Ordering.eq) ∧
    (Ticket.cmp ⟨1, 0, ⟨[1]⟩⟩ ⟨2, 0, ⟨[1]⟩⟩ = Ordering.lt) ∧
    (Ticket.cmp ⟨1, 0, ⟨[1]⟩⟩ ⟨3, 0, ⟨[1]⟩⟩ = Ordering.lt) ∧
    (Ticket.cmp ⟨0, 0, ⟨[1]⟩⟩ ⟨0, 0, ⟨[2]⟩⟩ = Ordering.lt) ∧
    (Ticket.cmp ⟨0, 0, ⟨[1]⟩⟩ ⟨0, 1, ⟨[1]⟩⟩ = Ordering.lt) ∧
    (Ticket.after ⟨2, 0, ⟨[1]⟩⟩ ⟨1, 0, ⟨[1]⟩⟩ = true) := by
  refine ⟨(C3_ticket_strict_total_order.1 _ _).mpr rfl, ?_, ?_, ?_, ?_, ?_⟩
  · exact C3_ticket_strict_total_order.2.2.2.1 ⟨1, 0, ⟨[1]⟩⟩ ⟨2, 0, ⟨[1]⟩⟩ (by decide)
  · exact C3_ticket_strict_total_order.2.2.1 ⟨1, 0, ⟨[1]⟩⟩ ⟨2, 0, ⟨[1]⟩⟩ ⟨3, 0, ⟨[1]⟩⟩
      (by decide) (by decide)
  · exact C3_ticket_strict_total_order.2.2.2.2.1 ⟨0, 0, ⟨[1]⟩⟩ ⟨0, 0, ⟨[2]⟩⟩ rfl (by decide)
  · exact C3_ticket_strict_total_order.2.2.2.2.2.1 ⟨0, 0, ⟨[1]⟩⟩ ⟨0, 1, ⟨[1]⟩⟩ rfl rfl
      (by decide)
  · exact (C3_ticket_strict_total_order.2.2.2.2.2.2.2 ⟨2, 0, ⟨[1]⟩⟩ ⟨1, 0, ⟨[1]⟩⟩).mpr
      (by decide)

/-! ## RHTPQMap — replicated priority-queue map (`rht_pq_map.rs`)

The Rust structure shares `Rc<RefCell<RHTPQMapNode>>` nodes between the
per-key `BinaryHeap`s and the by-creation-ticket `HashMap`.  The model
uses an arena: nodes live in `arena` (a node id is an index, standing
for an `Rc` identity) and both maps hold node ids.  The element type is
`MockElement` from the same source file, the repository's only
implementation of the `Element` trait contract. -/

/-- `MockElement` from the tests of `rht_pq_map.rs` (the repository's
`Element` implementation). -/
structure MockElement where
  value : Nat
  created_at : Ticket
  moved_at : Option Ticket
  removed_at : Option Ticket
deriving DecidableEq, Repr

/-- `MockElement::remove`: tombstone only with a ticket after the
creation and after any existing tombstone; returns whether it acted. -/
def MockElement.remove (e : MockElement) (ticket : Ticket) : Bool × MockElement :=
  if ticket.after e.created_at then
    match e.removed_at with
    | some removed_at =>
      if ticket.after removed_at then (true, { e with removed_at := some ticket })
      else (false, e)
    | none => (true, { e with removed_at := some ticket })
  else (false, e)

/-- `RHTPQMapNode` from `rht_pq_map.rs`. -/
structure RHTPQMapNode where
  key : String
  element : MockElement
deriving DecidableEq, Repr

/-- `RHTPQMapNode::remove`. -/
def RHTPQMapNode.remove (n : RHTPQMapNode) (ticket : Ticket) : Bool × RHTPQMapNode :=
  match n.element.remove ticket with
  | (b, e) => (b, { n with element := e })

/-- `RHTPQMapNode::is_removed`. -/
def RHTPQMapNode.is_removed (n : RHTPQMapNode) : Bool :=
  match n.element.removed_at with
  | some _ => true
  | none => false

/-- `RHTPriorityQueueMap` in arena form.  Node ids index `arena` and
model `Rc` identities shared by the two maps. -/
structure RHTPQMap where
  arena : List RHTPQMapNode
  node_queue_map_by_key : List (String × List Nat)
  node_map_by_created_at : List (Ticket × Nat)
deriving DecidableEq, Repr

/-- Dereference a node id (an `Rc` can never dangle in the source, so
the default is unreachable for states built by the operations). -/
def RHTPQMap.nodeAt (m : RHTPQMap) (i : Nat) : RHTPQMapNode :=
  m.arena.getD i ⟨"", ⟨0, ⟨0, 0, ⟨[]⟩⟩, none, none⟩⟩

def RHTPQMap.setNodeAt (m : RHTPQMap) (i : Nat) (n : RHTPQMapNode) : RHTPQMap :=
  { m with arena := m.arena.set i n }

def RHTPQMap.lookupQueue (m : RHTPQMap) (key : String) : Option (List Nat) :=
  (m.node_queue_map_by_key.find? (fun p => p.1 == key)).map (fun p => p.2)

def setQueueList (l : List (String × List Nat)) (key : String) (q : List Nat) :
    List (String × List Nat) :=
  match l with
  | [] => [(key, q)]
  | p :: rest => if p.1 == key then (key, q) :: rest else p :: setQueueList rest key q

def RHTPQMap.lookupCreated (m : RHTPQMap) (t : Ticket) : Option Nat :=
  (m.node_map_by_created_at.find? (fun p => p.1 == t)).map (fun p => p.2)

def setCreatedList (l : List (Ticket × Nat)) (t : Ticket) (i : Nat) :
    List (Ticket × Nat) :=
  match l with
  | [] => [(t, i)]
  | p :: rest => if p.1 == t then (t, i) :: rest else p :: setCreatedList rest t i

/-- `BinaryHeap::peek` under the `Ord` impl of `rht_pq_map.rs`, which
ranks a node `Greater` exactly when its element's `created_at` is
`after` the other's: the maximum by creation ticket. -/
def RHTPQMap.heapPeek (m : RHTPQMap) (q : List Nat) : Option Nat :=
  q.foldl (fun best i =>
    match best with
    | none => some i
    | some b =>
      if ((m.nodeAt i).element.created_at).after ((m.nodeAt b).element.created_at)
      then some i else some b) none

/-- `RHTPriorityQueueMap::get`. -/
def RHTPQMap.get (m : RHTPQMap) (key : String) : Option MockElement :=
  let node := match m.lookupQueue key with
    | some q => m.heapPeek q
    | none => none
  match node with
  | some i =>
    if (m.nodeAt i).is_removed then none else some (m.nodeAt i).element
  | none => none

/-- `RHTPriorityQueueMap::has`. -/
def RHTPQMap.has (m : RHTPQMap) (key : String) : Bool :=
  match m.lookupQueue key with
  | some q =>
    match m.heapPeek q with
    | some i => !(m.nodeAt i).is_removed
    | none => false
  | none => false

/-- `RHTPriorityQueueMap::set_internal`: allocate the node, index it by
its creation ticket, and push it onto the per-key queue. -/
def RHTPQMap.set_internal (m : RHTPQMap) (key : String) (value : MockElement) :
    RHTPQMap :=
  let id := m.arena.length
  let m1 : RHTPQMap := { m with arena := m.arena ++ [⟨key, value⟩] }
  let m2 : RHTPQMap :=
    { m1 with node_map_by_created_at :=
        setCreatedList m1.node_map_by_created_at value.created_at id }
  let q := match m2.lookupQueue key with
    | some q => q
    | none => []
  { m2 with node_queue_map_by_key := setQueueList m2.node_queue_map_by_key key (q ++ [id]) }

/-- `RHTPriorityQueueMap::set`: the `return` statements inside the
`match node` arms leave the function before `set_internal` runs, so a
key with any head never receives the new element. -/
def RHTPQMap.set (m : RHTPQMap) (key : String) (value : MockElement) :
    Option MockElement × RHTPQMap :=
  let node := match m.lookupQueue key with
    | some q => m.heapPeek q
    | none => none
  match node with
  | some i =>
    let n := m.nodeAt i
    if n.is_removed then (none, m)
    else
      match n.remove value.created_at with
      | (ok, n') =>
        let m' := m.setNodeAt i n'
        if ok then (some n'.element, m') else (none, m')
  | none => (none, m.set_internal key value)

/-- `RHTPriorityQueueMap::delete`: tombstone the current head. -/
def RHTPQMap.delete (m : RHTPQMap) (key : String) (deleted_at : Ticket) :
    Option MockElement × RHTPQMap :=
  match m.lookupQueue key with
  | some q =>
    match m.heapPeek q with
    | some i =>
      match (m.nodeAt i).remove deleted_at with
      | (ok, n') =>
        let m' := m.setNodeAt i n'
        (if ok then some n'.element else none, m')
    | none => (none, m)
  | none => (none, m)

/-- `RHTPriorityQueueMap::delete_by_created_at`. -/
def RHTPQMap.delete_by_created_at (m : RHTPQMap) (created_at deleted_at : Ticket) :
    Option MockElement × RHTPQMap :=
  match m.lookupCreated created_at with
  | some i =>
    match (m.nodeAt i).remove deleted_at with
    | (ok, n') =>
      let m' := m.setNodeAt i n'
      (if ok then some n'.element else none, m')
  | none => (none, m)

/-- `RHTPQMapError::ElementNotFound` (the source carries the ticket's
key string; the model carries the ticket itself). -/
inductive RHTPQMapError where
  | ElementNotFound (t : Ticket)
deriving DecidableEq, Repr

/-- Outcome of `purge`: a normal return (`ok`/`err`) or death by a
`RefCell` borrow panic (`borrowPanic`). -/
inductive PurgeOutcome where
  | ok (m : RHTPQMap)
  | err (e : RHTPQMapError)
  | borrowPanic
deriving DecidableEq, Repr

/-- `RHTPriorityQueueMap::purge`: after the creation-ticket lookup the
source takes `node.borrow_mut()` on the target cell and holds that
guard through the whole drain loop.  The drain pops the per-key heap;
`BinaryHeap::pop` compares the remaining `Rc<RefCell<..>>` entries
(the derived `Ord` of `RefCell` borrows both cells), and the explicit
`item.borrow()` borrows the popped cell — so as soon as the target's
own cell sits in that heap a shared borrow collides with the live
`RefMut` and the call panics (`borrowPanic`).  Only when the target
cell is absent from the queue found under its key — a state the public
operations never build, since `set_internal` pushes every node onto
its own key's queue — does the drain finish: it skips every popped
item whose key equals the target node's key, pushes the rest back,
and calls `node.remove` with the node's own creation ticket (a no-op,
since a ticket is never `after` itself).  `node_map_by_created_at` is
never touched. -/
def RHTPQMap.purge (m : RHTPQMap) (element : MockElement) : PurgeOutcome :=
  match m.lookupCreated element.created_at with
  | none => PurgeOutcome.err (RHTPQMapError.ElementNotFound element.created_at)
  | some i =>
    let node := m.nodeAt i
    match m.lookupQueue node.key with
    | none => PurgeOutcome.err (RHTPQMapError.ElementNotFound element.created_at)
    | some q =>
      if q.contains i then PurgeOutcome.borrowPanic
      else
        let remaining := q.filter (fun j => ¬ ((m.nodeAt j).key == node.key))
        let m1 : RHTPQMap :=
          { m with node_queue_map_by_key :=
              setQueueList m.node_queue_map_by_key node.key remaining }
        match node.remove node.element.created_at with
        | (_, node') => PurgeOutcome.ok (m1.setNodeAt i node')

/-- C1 — evaluation at the failing input.  Under key `"data"` there is a
live head `e1 = {value 1, created_at (0,0)}`, built by `set` from the
empty map.  `set "data" e2` with `e2 = {value 2, created_at (0,1)}`
tombstones the head and returns it as the displaced value, but the
early `return` skips `set_internal`: `e2` appears neither in the
per-key queue (still `[0]`, the old node) nor in the creation-ticket
index (ticket `(0,1)` unindexed), and the arena still holds only the
old node — contradicting the claim that the new element is still
inserted into both structures. -/
theorem C1_set_on_live_head_does_not_insert :
    ((((RHTPQMap.mk [] [] []).set "data" ⟨1, ⟨0, 0, ⟨[1]⟩⟩, none, none⟩).2).set "data"
        ⟨2, ⟨0, 1, ⟨[1]⟩⟩, none, none⟩ =
      (some ⟨1, ⟨0, 0, ⟨[1]⟩⟩, none, some ⟨0, 1, ⟨[1]⟩⟩⟩,
        RHTPQMap.mk [⟨"data", ⟨1, ⟨0, 0, ⟨[1]⟩⟩, none, some ⟨0, 1, ⟨[1]⟩⟩⟩⟩]
          [("data", [0])] [(⟨0, 0, ⟨[1]⟩⟩, 0)])) ∧
    ((((((RHTPQMap.mk [] [] []).set "data" ⟨1, ⟨0, 0, ⟨[1]⟩⟩, none, none⟩).2).set "data"
        ⟨2, ⟨0, 1, ⟨[1]⟩⟩, none, none⟩).2).lookupCreated ⟨0, 1, ⟨[1]⟩⟩ = none) ∧
    ((((((RHTPQMap.mk [] [] []).set "data" ⟨1, ⟨0, 0, ⟨[1]⟩⟩, none, none⟩).2).set "data"
        ⟨2, ⟨0, 1, ⟨[1]⟩⟩, none, none⟩).2).lookupQueue "data" = some [0]) :=
  ⟨rfl, rfl, rfl⟩

/-- C6 — evaluation at the failing inputs.  `purge` holds a
`borrow_mut` guard on the target node while the drain loop pops and
borrows that very cell from its own per-key heap, so (1) on the
reachable single-entry map built by `set`, `purge` of the tracked
element panics with a `RefCell` borrow error instead of evicting the
entry; (2) only the untracked half of the claim behaves: `purge` of an
element whose creation ticket is not indexed returns `ElementNotFound`;
(3) with two entries under the key the tracked `purge` panics all the
same.  A tracked entry is therefore never removed from either
structure — contradicting the claim that `purge` evicts it from both
and fails exactly when the ticket is untracked. -/
theorem C6_purge_panics_on_tracked_entry :
    ((((RHTPQMap.mk [] [] []).set "k" ⟨1, ⟨0, 0, ⟨[1]⟩⟩, none, none⟩).2).purge
        ⟨1, ⟨0, 0, ⟨[1]⟩⟩, none, none⟩ = PurgeOutcome.borrowPanic) ∧
    ((((RHTPQMap.mk [] [] []).set "k" ⟨1, ⟨0, 0, ⟨[1]⟩⟩, none, none⟩).2).purge
        ⟨2, ⟨0, 1, ⟨[1]⟩⟩, none, none⟩ =
      PurgeOutcome.err (RHTPQMapError.ElementNotFound ⟨0, 1, ⟨[1]⟩⟩)) ∧
    ((RHTPQMap.mk [⟨"k", ⟨1, ⟨0, 0, ⟨[1]⟩⟩, none, none⟩⟩, ⟨"k", ⟨2, ⟨0, 1, ⟨[1]⟩⟩, none, none⟩⟩]
        [("k", [0, 1])] [(⟨0, 0, ⟨[1]⟩⟩, 0), (⟨0, 1, ⟨[1]⟩⟩, 1)]).purge
        ⟨1, ⟨0, 0, ⟨[1]⟩⟩, none, none⟩ = PurgeOutcome.borrowPanic) :=
  ⟨rfl, rfl, rfl⟩

/-! ## Splay — weighted splay tree (`splay.rs`)

Arena model of the `Rc<RefCell<Node>>` graph: a node id indexes `arena`
and the `parent`/`left`/`right` fields hold node ids, exactly the
pointer structure of the source.  Two node ids are the same `RefCell`
exactly when they are equal.  The source's panics — `unwrap()` on a
missing pointer, and `RefCell` borrow conflicts (a `borrow_mut` while
a `Ref` or `RefMut` guard on the same cell is still alive; guards drop
at the end of their scope, and shadowing a binding does not drop the
shadowed guard) — are modelled as error values. -/

/-- `Node` from `splay.rs` with the test file's `TestValue` (a string
whose `len` is its length). -/
structure SplayNode where
  value : String
  weight : Nat
  parent : Option Nat
  left : Option Nat
  right : Option Nat
deriving DecidableEq, Repr

/-- `Tree` from `splay.rs`. -/
structure SplayTree where
  arena : List SplayNode
  root : Option Nat
deriving DecidableEq, Repr

/-- The panics `splay.rs` can raise: `unwrapNone` for `unwrap()` on a
missing pointer, `borrowMut` for a `RefCell` borrow conflict
(`BorrowMutError`/`BorrowError`). -/
inductive SplayPanic where
  | unwrapNone
  | borrowMut
deriving DecidableEq, Repr

/-- Dereference a node id (ids come from live `Rc`s and never dangle). -/
def SplayTree.nodeAt (t : SplayTree) (i : Nat) : SplayNode :=
  t.arena.getD i ⟨"", 0, none, none, none⟩

def SplayTree.setN (t : SplayTree) (i : Nat) (f : SplayNode → SplayNode) : SplayTree :=
  { t with arena := t.arena.set i (f (t.nodeAt i)) }

/-- `Tree::update_subtree`: weight := own length + children weights. -/
def SplayTree.update_subtree (t : SplayTree) (i : Nat) : SplayTree :=
  let n := t.nodeAt i
  let w := n.value.length +
    (match n.left with | some l => (t.nodeAt l).weight | none => 0) +
    (match n.right with | some r => (t.nodeAt r).weight | none => 0)
  t.setN i (fun n => { n with weight := w })

/-- `is_left_child` from `splay.rs`. -/
def SplayTree.is_left_child (t : SplayTree) (i : Nat) : Bool :=
  match (t.nodeAt i).parent with
  | some p =>
    match (t.nodeAt p).left with
    | some l => l == i
    | none => false
  | none => false

/-- `is_right_child` from `splay.rs`. -/
def SplayTree.is_right_child (t : SplayTree) (i : Nat) : Bool :=
  match (t.nodeAt i).parent with
  | some p =>
    match (t.nodeAt p).right with
    | some r => r == i
    | none => false
  | none => false

/-- `Tree::rotate_left` from `splay.rs`.  The shared borrow of the
pivot taken at the top (`let pivot = pivot_rc.borrow()`, line 140)
lives to the end of the function — the shadowing
`let mut pivot = pivot_rc.borrow_mut()` at line 155 does not drop
it — so reaching line 155 always panics with a `BorrowMutError`.
What runs before that, in order: line 141 unwraps `pivot.parent`
(panic when absent); line 142 takes `borrow_mut` on the parent cell
(a borrow panic if that cell is the pivot itself); and when a
grandparent exists, line 145 takes `borrow_mut` on it (a borrow panic
if it aliases the pivot or the parent) and line 146 unwraps its
`left` child (panic when absent, even when the parent is a right
child).  No rotation ever completes, so the pointer surgery and
`update_subtree` calls of lines 156–170 are dead code. -/
def SplayTree.rotate_left (t : SplayTree) (pivot : Nat) :
    Except SplayPanic SplayTree :=
  match (t.nodeAt pivot).parent with
  | none => Except.error SplayPanic.unwrapNone
  | some root =>
    if root == pivot then Except.error SplayPanic.borrowMut
    else
      match (t.nodeAt root).parent with
      | some gp =>
        if gp == pivot || gp == root then Except.error SplayPanic.borrowMut
        else
          match (t.nodeAt gp).left with
          | some _ => Except.error SplayPanic.borrowMut
          | none => Except.error SplayPanic.unwrapNone
      | none => Except.error SplayPanic.borrowMut

/-- `Tree::rotate_right` from `splay.rs`: the mirror of `rotate_left`
with the same borrow structure, so the same fate.  The `Ref` from
line 174 is still live at the `borrow_mut` of line 189, after
line 175 unwraps `pivot.parent`, line 176 takes `borrow_mut` on the
parent cell, and — when a grandparent exists — line 179 takes
`borrow_mut` on it and line 180 unwraps its `left` child (the left
one here too). -/
def SplayTree.rotate_right (t : SplayTree) (pivot : Nat) :
    Except SplayPanic SplayTree :=
  match (t.nodeAt pivot).parent with
  | none => Except.error SplayPanic.unwrapNone
  | some root =>
    if root == pivot then Except.error SplayPanic.borrowMut
    else
      match (t.nodeAt root).parent with
      | some gp =>
        if gp == pivot || gp == root then Except.error SplayPanic.borrowMut
        else
          match (t.nodeAt gp).left with
          | some _ => Except.error SplayPanic.borrowMut
          | none => Except.error SplayPanic.unwrapNone
      | none => Except.error SplayPanic.borrowMut

inductive SplayOutcome where
  | ok (t : SplayTree)
  | panicked (p : SplayPanic)
  | fuelOut
deriving DecidableEq, Repr

/-- The body of `Tree::splay`'s `loop`, iterated with fuel.  Each
iteration starts with `node.parent.as_ref().unwrap()` — a panic when
the node has no parent.  Only the final `else` arm has a `return`,
and since every rotation panics, the only way to reach it alive is
its no-rotation path (a corrupt graph where the node is neither child
of its parent). -/
def splayLoop : Nat → SplayTree → Nat → SplayOutcome
  | 0, _, _ => SplayOutcome.fuelOut
  | fuel + 1, t, node =>
    match (t.nodeAt node).parent with
    | none => SplayOutcome.panicked SplayPanic.unwrapNone
    | some parent =>
      if t.is_left_child parent && t.is_right_child node then
        match t.rotate_left node with
        | Except.error p => SplayOutcome.panicked p
        | Except.ok t1 =>
          match t1.rotate_right node with
          | Except.error p => SplayOutcome.panicked p
          | Except.ok t2 => splayLoop fuel t2 node
      else if t.is_right_child parent && t.is_left_child node then
        match t.rotate_right node with
        | Except.error p => SplayOutcome.panicked p
        | Except.ok t1 =>
          match t1.rotate_left node with
          | Except.error p => SplayOutcome.panicked p
          | Except.ok t2 => splayLoop fuel t2 node
      else if t.is_left_child parent && t.is_left_child node then
        match t.rotate_left parent with
        | Except.error p => SplayOutcome.panicked p
        | Except.ok t1 =>
          match t1.rotate_left node with
          | Except.error p => SplayOutcome.panicked p
          | Except.ok t2 => splayLoop fuel t2 node
      else
        if t.is_left_child node then
          match t.rotate_right node with
          | Except.error p => SplayOutcome.panicked p
          | Except.ok t1 => SplayOutcome.ok t1
        else if t.is_right_child node then
          match t.rotate_left node with
          | Except.error p => SplayOutcome.panicked p
          | Except.ok t1 => SplayOutcome.ok t1
        else
          SplayOutcome.ok t

/-- `Tree::splay` with enough fuel for the evaluated inputs. -/
def SplayTree.splay (t : SplayTree) (node : Nat) : SplayOutcome :=
  splayLoop (t.arena.length + 2) t node

/-- C9 — evaluation at the failing inputs.  `splay` never completes
for any node of a well-formed tree.  The loop body begins with
`node.parent.as_ref().unwrap()`, so (1) splaying the root of a
one-node tree panics on that unwrap at once.  For every other node a
rotation runs, and every rotation panics: the shared borrow of the
pivot taken at its first line is still live when
`pivot_rc.borrow_mut()` executes, so (2) even the zig case — splaying
the direct child of the root — dies with a `BorrowMutError` inside
`rotate_right`, and (3) the zig-zag case from depth 2 (parent `1` is
the left child of root `0`, node `2` is the right child of `1`) dies
the same way inside its first `rotate_left` — contradicting the claim
that `splay(node)` terminates normally and makes the node the root
via zig-zag, zig-zig and zig rotations. -/
theorem C9_splay_always_panics :
    (SplayTree.splay ⟨[⟨"a", 1, none, none, none⟩], some 0⟩ 0 =
      SplayOutcome.panicked SplayPanic.unwrapNone) ∧
    (SplayTree.splay ⟨[⟨"a", 2, none, some 1, none⟩,
        ⟨"b", 1, some 0, none, none⟩], some 0⟩ 1 =
      SplayOutcome.panicked SplayPanic.borrowMut) ∧
    (SplayTree.splay ⟨[⟨"a", 3, none, some 1, none⟩, ⟨"b", 2, some 0, none, some 2⟩,
        ⟨"c", 1, some 1, none, none⟩], some 0⟩ 2 =
      SplayOutcome.panicked SplayPanic.borrowMut) :=
  ⟨rfl, rfl, rfl⟩

/-! ## LLRB — left-leaning red-black tree (`llrb.rs`)

The recursive insert/remove never read the parent pointers (those are
only used by `floor`), so the tree is modelled functionally; an
`Option<Rc<Node>>` child is `nil`.  Keys and values are `Nat`
(`TestKey`/`TestValue` of the test module are `u8` compared by `<`).
`unwrap()` panics that are reachable in `remove` are modelled as
`error` results; `insert` guards every `unwrap` and is total. -/

inductive RBTree where
  | nil
  | node (is_red : Bool) (left : RBTree) (key : Nat) (value : Nat) (right : RBTree)
deriving DecidableEq, Repr

namespace RBTree

/-- `is_red(&OptionNode)` from `llrb.rs` (`None` is black). -/
def isRed : RBTree → Bool
  | node r _ _ _ _ => r
  | nil => false

def getLeft : RBTree → RBTree
  | node _ l _ _ _ => l
  | nil => nil

def getRight : RBTree → RBTree
  | node _ _ _ _ r => r
  | nil => nil

/-- `rotate_left` from `llrb.rs`: the new root takes the old root's
color, the old root turns red.  Every call site has checked that the
right child exists (it is red), so the fallback is unreachable. -/
def rotate_left : RBTree → RBTree
  | node c l k v (node _ rl rk rv rr) => node c (node true l k v rl) rk rv rr
  | t => t

/-- `rotate_right` from `llrb.rs`. -/
def rotate_right : RBTree → RBTree
  | node c (node _ ll lk lv lr) k v r => node c ll lk lv (node true lr k v r)
  | t => t

/-- Toggle the color of a node (helper for `flip_colors`). -/
def flipRoot : RBTree → RBTree
  | node c l k v r => node (!c) l k v r
  | nil => nil

/-- `flip_colors` from `llrb.rs`: toggle the node and both children. -/
def flip_colors : RBTree → RBTree
  | node c l k v r => node (!c) (flipRoot l) k v (flipRoot r)
  | nil => nil

/-- `need_rotate_left` from `llrb.rs`. -/
def need_rotate_left (t : RBTree) : Bool :=
  t.getRight.isRed && !t.getLeft.isRed

/-- `need_rotate_right` from `llrb.rs`. -/
def need_rotate_right (t : RBTree) : Bool :=
  t.getLeft.isRed && t.getLeft.getLeft.isRed

/-- `need_flip_colors` from `llrb.rs`. -/
def need_flip_colors (t : RBTree) : Bool :=
  t.getLeft.isRed && t.getRight.isRed

/-- `Tree::insert_fix_up` from `llrb.rs` (the `size` counter is not
carried: nothing in the claims reads it). -/
def insert_fix_up : RBTree → Nat → Nat → RBTree
  | nil, key, value => node true nil key value nil
  | node c l k v r, key, value =>
    let t := match Ord.compare key k with
      | Ordering.lt => node c (insert_fix_up l key value) k v r
      | Ordering.gt => node c l k v (insert_fix_up r key value)
      | Ordering.eq => node c l k value r
    let t1 := if need_rotate_left t then rotate_left t else t
    let t2 := if need_rotate_right t1 then rotate_right t1 else t1
    if need_flip_colors t2 then flip_colors t2 else t2

/-- `Tree::insert` from `llrb.rs`: after the fix-up chain the source
sets `root.is_red = true` — it forces the root RED. -/
def insert (t : RBTree) (key value : Nat) : RBTree :=
  match insert_fix_up t key value with
  | nil => nil
  | node _ l k v r => node true l k v r

/-- `fix_up` from `llrb.rs`: rotate left if the right child is red;
rotate right on a red left child with red left-left grandchild; then —
as written in the source — flip colors when the left child and the
left child's RIGHT child are red. -/
def fix_up (t : RBTree) : RBTree :=
  let t1 := if t.getRight.isRed then rotate_left t else t
  let t2 := if t1.getLeft.isRed && t1.getLeft.getLeft.isRed then rotate_right t1 else t1
  if t2.getLeft.isRed && t2.getLeft.getRight.isRed then flip_colors t2 else t2

/-- `move_red_left` from `llrb.rs`; `None` is the `unwrap` panic on a
missing right child. -/
def move_red_left (t : RBTree) : Option RBTree :=
  let t1 := flip_colors t
  match t1.getRight with
  | nil => none
  | node _ rl _ _ _ =>
    if rl.isRed then
      match t1 with
      | node c l k v rr => some (flip_colors (rotate_left (node c l k v (rotate_right rr))))
      | nil => none
    else some t1

/-- `move_red_right` from `llrb.rs`; `None` is the `unwrap` panic on a
missing left child. -/
def move_red_right (t : RBTree) : Option RBTree :=
  let t1 := flip_colors t
  match t1.getLeft with
  | nil => none
  | node _ ll _ _ _ =>
    if ll.isRed then some (flip_colors (rotate_right t1))
    else some t1

/-- `min` from `llrb.rs` (`None` only for the empty tree, on which the
source never calls it). -/
def minNode : RBTree → Option (Nat × Nat)
  | nil => none
  | node _ l k v _ =>
    match l with
    | nil => some (k, v)
    | node .. => minNode l

inductive LLRBStop where
  | panicked
  | fuelOut
deriving DecidableEq, Repr

/-- `remove_min` from `llrb.rs`, fuelled; `panicked` models the
`unwrap` of a left child that is absent. -/
def remove_min : Nat → RBTree → Except LLRBStop RBTree
  | 0, _ => Except.error LLRBStop.fuelOut
  | _ + 1, nil => Except.error LLRBStop.panicked
  | fuel + 1, t@(node ..) =>
    if t.getLeft = nil then Except.ok nil
    else
      let step : Except LLRBStop RBTree :=
        if !t.getLeft.isRed && !t.getLeft.getLeft.isRed then
          match move_red_left t with
          | some t' => Except.ok t'
          | none => Except.error LLRBStop.panicked
        else Except.ok t
      match step with
      | Except.error e => Except.error e
      | Except.ok t1 =>
        match t1 with
        | node c l k v r =>
          match remove_min fuel l with
          | Except.error e => Except.error e
          | Except.ok lres => Except.ok (fix_up (node c lres k v r))
        | nil => Except.error LLRBStop.panicked

/-- `Tree::remove_fix_up` from `llrb.rs`, fuelled. -/
def remove_fix_up : Nat → RBTree → Nat → Except LLRBStop RBTree
  | 0, _, _ => Except.error LLRBStop.fuelOut
  | _ + 1, nil, _ => Except.error LLRBStop.panicked
  | fuel + 1, t@(node ..), key =>
    match Ord.compare key (match t with | node _ _ k _ _ => k | nil => 0) with
    | Ordering.lt =>
      let step : Except LLRBStop RBTree :=
        if !t.getLeft.isRed then
          match t.getLeft with
          | nil => Except.error LLRBStop.panicked
          | node _ ll _ _ _ =>
            if !ll.isRed then
              match move_red_left t with
              | some t' => Except.ok t'
              | none => Except.error LLRBStop.panicked
            else Except.ok t
        else Except.ok t
      match step with
      | Except.error e => Except.error e
      | Except.ok t1 =>
        match t1 with
        | node c l k v r =>
          match l with
          | nil => Except.error LLRBStop.panicked
          | node .. =>
            match remove_fix_up fuel l key with
            | Except.error e => Except.error e
            | Except.ok lres => Except.ok (fix_up (node c lres k v r))
        | nil => Except.error LLRBStop.panicked
    | _ =>
      let t1 := if t.getLeft.isRed then rotate_right t else t
      let k1 := match t1 with | node _ _ k _ _ => k | nil => 0
      if Ord.compare key k1 = Ordering.eq ∧ t1.getRight = nil then Except.ok nil
      else
        let step : Except LLRBStop RBTree :=
          if !t1.getRight.isRed then
            match t1.getRight with
            | nil => Except.error LLRBStop.panicked
            | node _ rl _ _ _ =>
              if !rl.isRed then
                match move_red_right t1 with
                | some t' => Except.ok t'
                | none => Except.error LLRBStop.panicked
              else Except.ok t1
          else Except.ok t1
        match step with
        | Except.error e => Except.error e
        | Except.ok t2 =>
          match t2 with
          | node c2 l2 k2 v2 r2 =>
            if Ord.compare key k2 = Ordering.eq then
              match minNode r2 with
              | none => Except.error LLRBStop.panicked
              | some m =>
                match remove_min fuel r2 with
                | Except.error e => Except.error e
                | Except.ok rres => Except.ok (fix_up (node c2 l2 m.1 m.2 rres))
            else
              match r2 with
              | nil => Except.error LLRBStop.panicked
              | node .. =>
                match remove_fix_up fuel r2 key with
                | Except.error e => Except.error e
                | Except.ok rres => Except.ok (fix_up (node c2 l2 k2 v2 rres))
          | nil => Except.error LLRBStop.panicked

def size : RBTree → Nat
  | nil => 0
  | node _ l _ _ r => size l + size r + 1

/-- `Tree::remove` from `llrb.rs`: color the root red when both its
children are black, then run the recursive fix-up.  The fuel `size+1`
covers every terminating run (each level consumes one unit). -/
def remove (t : RBTree) (key : Nat) : Except LLRBStop RBTree :=
  match t with
  | nil => Except.ok nil
  | node c l k v r =>
    let root1 := if !l.isRed && !r.isRed then node true l k v r else node c l k v r
    remove_fix_up (t.size + 1) root1 key

/-- In-order key list (the traversal of `to_string`). -/
def inorderKeys : RBTree → List Nat
  | nil => []
  | node _ l k _ r => inorderKeys l ++ k :: inorderKeys r

/-- In-order value list (`to_string` joins the values). -/
def inorderValues : RBTree → List Nat
  | nil => []
  | node _ l _ v r => inorderValues l ++ v :: inorderValues r

/-- Equal black count along every root-to-nil path (`none` when the
subtree is inconsistent). -/
def blackHeight : RBTree → Option Nat
  | nil => some 1
  | node c l _ _ r =>
    match blackHeight l, blackHeight r with
    | some a, some b =>
      if a = b then some (a + (if c then 0 else 1)) else none
    | _, _ => none

/-- No red node has a red right child. -/
def noRedRedRight : RBTree → Bool
  | nil => true
  | node c l _ _ r => (!(c && r.isRed)) && noRedRedRight l && noRedRedRight r

theorem rotate_left_ne_nil {t : RBTree} (h : t ≠ nil) : rotate_left t ≠ nil := by
  cases t with
  | nil => exact absurd rfl h
  | node c l k v r => cases r <;> simp [rotate_left]

theorem rotate_right_ne_nil {t : RBTree} (h : t ≠ nil) : rotate_right t ≠ nil := by
  cases t with
  | nil => exact absurd rfl h
  | node c l k v r => cases l <;> simp [rotate_right]

theorem flip_colors_ne_nil {t : RBTree} (h : t ≠ nil) : flip_colors t ≠ nil := by
  cases t with
  | nil => exact absurd rfl h
  | node c l k v r => simp [flip_colors]

theorem pipeline_ne_nil (t : RBTree) (h : t ≠ nil) :
    (let t1 := if need_rotate_left t then rotate_left t else t
     let t2 := if need_rotate_right t1 then rotate_right t1 else t1
     if need_flip_colors t2 then flip_colors t2 else t2) ≠ nil := by
  dsimp only
  have h1 : (if need_rotate_left t then rotate_left t else t) ≠ nil := by
    split
    · exact rotate_left_ne_nil h
    · exact h
  generalize hg1 : (if need_rotate_left t then rotate_left t else t) = t1 at h1 ⊢
  have h2 : (if need_rotate_right t1 then rotate_right t1 else t1) ≠ nil := by
    split
    · exact rotate_right_ne_nil h1
    · exact h1
  generalize hg2 : (if need_rotate_right t1 then rotate_right t1 else t1) = t2 at h2 ⊢
  split
  · exact flip_colors_ne_nil h2
  · exact h2

theorem insert_fix_up_ne_nil (t : RBTree) (key value : Nat) :
    insert_fix_up t key value ≠ nil := by
  cases t with
  | nil => simp [insert_fix_up]
  | node c l k v r =>
    unfold insert_fix_up
    rcases hc : Ord.compare key k with _ | _ | _ <;> dsimp only <;>
      exact pipeline_ne_nil _ (by simp)

end RBTree

/-- One repository operation: `(true, k)` is `insert(k, k)`, `(false,
k)` is `remove(k)`. -/
def applyRBOp (t : RBTree) (op : Bool × Nat) : Except RBTree.LLRBStop RBTree :=
  if op.1 then Except.ok (t.insert op.2 op.2) else t.remove op.2

/-- Apply a sequence of operations from a starting tree, stopping at
the first panic. -/
def buildRBFrom (t : RBTree) : List (Bool × Nat) → Except RBTree.LLRBStop RBTree
  | [] => Except.ok t
  | op :: ops =>
    match applyRBOp t op with
    | Except.ok t' => buildRBFrom t' ops
    | Except.error e => Except.error e

/-- Build a tree from the empty tree by a sequence of operations. -/
def buildRB (ops : List (Bool × Nat)) : Except RBTree.LLRBStop RBTree :=
  buildRBFrom RBTree.nil ops

/-- C7 — evaluation at the failing input.  Building from the empty tree
by the inserts of 8, 2, 3, 6, 5, 0, 1, 7, 4 (as key-value pairs `(k,k)`)
followed by `remove 3` and `remove 8` — all succeeding — yields a tree
whose black-height differs between root-to-leaf paths
(`blackHeight = none`) and whose red root has a red right child,
contradicting both balance invariants of the claim (and the file's own
documented invariants 1-3).  The in-order keys are still ascending; the
color/balance part of the claim is what fails. -/
theorem C7_llrb_invariants_broken :
    (buildRB [(true, 8), (true, 2), (true, 3), (true, 6), (true, 5), (true, 0),
      (true, 1), (true, 7), (true, 4), (false, 3), (false, 8)]).toOption =
      some (RBTree.node true
        (RBTree.node false
          (RBTree.node false RBTree.nil 0 0 RBTree.nil) 1 1
          (RBTree.node true (RBTree.node false RBTree.nil 2 2 RBTree.nil) 4 4
            (RBTree.node false RBTree.nil 5 5 RBTree.nil))) 6 6
        (RBTree.node true RBTree.nil 7 7 RBTree.nil)) ∧
    RBTree.blackHeight (RBTree.node true
        (RBTree.node false
          (RBTree.node false RBTree.nil 0 0 RBTree.nil) 1 1
          (RBTree.node true (RBTree.node false RBTree.nil 2 2 RBTree.nil) 4 4
            (RBTree.node false RBTree.nil 5 5 RBTree.nil))) 6 6
        (RBTree.node true RBTree.nil 7 7 RBTree.nil)) = none ∧
    RBTree.noRedRedRight (RBTree.node true
        (RBTree.node false
          (RBTree.node false RBTree.nil 0 0 RBTree.nil) 1 1
          (RBTree.node true (RBTree.node false RBTree.nil 2 2 RBTree.nil) 4 4
            (RBTree.node false RBTree.nil 5 5 RBTree.nil))) 6 6
        (RBTree.node true RBTree.nil 7 7 RBTree.nil)) = false :=
  ⟨by rfl, by rfl, by rfl⟩

/-- C8 — the top-level `insert` always leaves the root RED, never
black: `Tree::insert` runs `node.borrow_mut().is_red = true` on the
root after `insert_fix_up` returns.  In particular two inserts produce
a red root with a red left child, violating the file's own documented
`Invariant 1: No red node has a red child`. -/
theorem C8_insert_forces_root_red :
    (∀ (t : RBTree) (k v : Nat), (t.insert k v).isRed = true) ∧
    (RBTree.insert (RBTree.insert RBTree.nil 1 1) 2 2 =
      RBTree.node true (RBTree.node true RBTree.nil 1 1 RBTree.nil) 2 2 RBTree.nil) := by
  constructor
  · intro t k v
    unfold RBTree.insert
    rcases h : RBTree.insert_fix_up t k v with _ | ⟨c, l, key, val, r⟩
    · exact absurd h (RBTree.insert_fix_up_ne_nil t k v)
    · rfl
  · rfl

end Yorkie
